import Mathlib

/-!
# lineSampler: the host binding `R_fs_wc` (src/wc.c)

`R_fs_wc` marshals a path and three flags from the host runtime, calls the
library routine `fs_wc`, checks its return code with `fs_checkret`, and packs
the three counters into a 3-element numeric vector.

The headers `Rfilesampler.h` and `filesampler/filesampler.h` are not part of
the source at hand, so everything they provide (`INT`, `CHARPT`, `fs_wc`,
`fs_checkret`) is a field of `Host`, and theorems about `R_fs_wc` hold for
every `Host`.
-/

namespace LineSampler

/-! ## C scalar types and conversions -/

/-- The C type `uint64_t`: the naturals below `2^64`. -/
abbrev uint64_t := Fin (2 ^ 64)

/-- Initialisation of a C `bool` from an `int` (`const bool chars = INT(chars_)`):
the result is true exactly when the integer compares unequal to zero. -/
def bool_of_int (v : Int) : Bool := v != 0

/-- Rounding direction of the floating-point environment (`FE_TONEAREST`,
`FE_UPWARD`, `FE_DOWNWARD`, `FE_TOWARDZERO`). -/
inductive RoundingMode
  | tonearest
  | upward
  | downward
  | towardzero
  deriving DecidableEq, Repr

/-- Number of low bits a value loses when it is stored with a 53-bit
significand: `0` below `2^53`, otherwise one more than for half the value.
Eleven halvings are enough for every value below `2^64`. -/
def ulpShift : Nat → Nat → Nat
  | 0, _ => 0
  | fuel + 1, n => if n < 2 ^ 53 then 0 else ulpShift fuel (n / 2) + 1

/-- The cast `(double) n` of a `uint64_t` value, as a natural number. A double
has a 53-bit significand: a value that fits is kept, any other value lies
strictly between two neighbouring doubles `lo < n < hi` and the rounding
direction picks one of them (to nearest, ties to the even significand, by
default). -/
def double_of_uint64_nat (rm : RoundingMode) (n : Nat) : Nat :=
  let e := ulpShift 11 n
  let q := n / 2 ^ e
  let r := n % 2 ^ e
  let lo := q * 2 ^ e
  let hi := (q + 1) * 2 ^ e
  if r = 0 then lo
  else
    match rm with
    | .downward => lo
    | .towardzero => lo
    | .upward => hi
    | .tonearest =>
      if 2 * r < 2 ^ e then lo
      else if 2 ^ e < 2 * r then hi
      else if q % 2 = 0 then lo else hi

/-- The cast `(double) n`. Every double that occurs in `R_fs_wc` is an integer
(a converted counter or `-1.0`), so doubles are embedded as integers. -/
def double_of_uint64 (rm : RoundingMode) (n : Nat) : Int :=
  Int.ofNat (double_of_uint64_nat rm n)

/-! ## The host interface -/

/-- What one call of `fs_wc` leaves behind: its return code and the contents of
the three out-parameters. The locals `nchars`, `nwords`, `nlines` of `R_fs_wc`
are declared without initialiser, so a counter that `fs_wc` did not write is
still indeterminate after the call (`none`). -/
structure FsWcOut where
  ret : Int
  nchars : Option uint64_t
  nwords : Option uint64_t
  nlines : Option uint64_t
  deriving DecidableEq, Repr

/-- Everything `R_fs_wc` takes from the two headers and from the process:
the accessor macros `INT` and `CHARPT`, the library routine
`fs_wc(file, chars, &nchars, words, &nwords, lines, &nlines)`, the checker
`fs_checkret` (`some msg` when it raises the host error with message `msg`,
which does not return; `none` when it returns), and the rounding direction in
force. -/
structure Host (SEXP : Type) where
  INT : SEXP → Int
  CHARPT : SEXP → Nat → String
  fs_wc : String → Bool → Bool → Bool → FsWcOut
  fs_checkret : Int → Option String
  rounding : RoundingMode

/-! ## The result vector -/

/-- Index of the character count: `#define NCHARS 0`. -/
def NCHARS : Nat := 0

/-- Index of the word count: `#define NWORDS 1`. -/
def NWORDS : Nat := 1

/-- Index of the line count: `#define NLINES 2`. -/
def NLINES : Nat := 2

/-- The payload of a `REALSXP`: one cell per element, `none` while the element
has not been written. -/
abbrev RealVec := List (Option Int)

/-- The call `allocVector(REALSXP, n)`: `n` elements, none of them written. -/
def allocVector (n : Nat) : RealVec := List.replicate n none

/-- How a call of `R_fs_wc` ends. -/
inductive Outcome
  /-- The host error was raised; `counts` is the result vector as it stood at
  that moment. Nothing is returned to the caller. -/
  | raised (msg : String) (counts : RealVec)
  /-- A local that was never written was read. -/
  | indeterminate
  /-- The vector was returned to the caller. -/
  | returned (counts : RealVec)
  deriving DecidableEq, Repr

/-- The conditional expression `flag ? (double) n : -1.0`. The counter is read
only on the true branch; reading a counter that was never written has no
defined value (`none`). -/
def cond_count (rm : RoundingMode) (flag : Bool) (n : Option uint64_t) : Option Int :=
  if flag then n.map (fun c => double_of_uint64 rm c.val) else some (-1)

/-- The function `R_fs_wc` of src/wc.c. `PROTECT`/`UNPROTECT` only pin the
vector against the collector and are not modelled. -/
def R_fs_wc {SEXP : Type} (host : Host SEXP) (input chars_ words_ lines_ : SEXP) : Outcome :=
  let chars := bool_of_int (host.INT chars_)
  let words := bool_of_int (host.INT words_)
  let lines := bool_of_int (host.INT lines_)
  let counts := allocVector 3
  let out := host.fs_wc (host.CHARPT input 0) chars words lines
  match host.fs_checkret out.ret with
  | some msg => .raised msg counts
  | none =>
    match cond_count host.rounding chars out.nchars with
    | none => .indeterminate
    | some c =>
      let counts := counts.set NCHARS (some c)
      match cond_count host.rounding words out.nwords with
      | none => .indeterminate
      | some w =>
        let counts := counts.set NWORDS (some w)
        match cond_count host.rounding lines out.nlines with
        | none => .indeterminate
        | some l =>
          let counts := counts.set NLINES (some l)
          .returned counts

/-! ## The counting engine behind `fs_wc`

The library that implements `fs_wc` is not part of the source at hand. The
engine is modelled from the specification's StreamCounter: one pass over the
bytes of the file, carrying a two-state word scanner and three 64-bit counters.
-/

/-- Modelled from the spec: the error taxonomy of the missing counting engine
(`FileNotFound`, `PermissionDenied`, `IoReadError` wrapping an OS error code). -/
inductive CountError
  | FileNotFound
  | PermissionDenied
  | IoReadError (code : Int)
  deriving DecidableEq, Repr

/-- Modelled from the spec: what opening and reading a named file to the end
gives the missing engine, either the bytes of the file or the error that
stopped the read. -/
abbrev FileSys := String → Except CountError (List Nat)

/-- Modelled from the spec: the `CountRequest` of the missing engine, a path
and three independent flags. -/
structure CountRequest where
  path : String
  wantChars : Bool
  wantWords : Bool
  wantLines : Bool
  deriving DecidableEq, Repr

/-- Modelled from the spec: the `CountResult` of the missing engine, three
optional 64-bit unsigned counts, one per flag. -/
structure CountResult where
  chars : Option uint64_t
  words : Option uint64_t
  lines : Option uint64_t
  deriving DecidableEq, Repr

/-- Modelled from the spec: the whitespace set of the missing engine, which is
space, tab, newline, carriage return, vertical tab and form feed. -/
def isWhitespace (b : Nat) : Bool :=
  b == 32 || b == 9 || b == 10 || b == 13 || b == 11 || b == 12

/-- Modelled from the spec: the two states of the missing engine's word
scanner. -/
inductive WordState
  | BeforeWord
  | InWord
  deriving DecidableEq, Repr

/-- Modelled from the spec: the `ScanState` of the missing engine, the word
state and the three running counters. -/
structure ScanState where
  state : WordState
  nchars : Nat
  nwords : Nat
  nlines : Nat
  deriving DecidableEq, Repr

/-- Modelled from the spec: one increment of a 64-bit unsigned counter of the
missing engine. -/
def incr64 (n : Nat) : Nat := (n + 1) % 2 ^ 64

/-- Modelled from the spec: the state of the missing engine at call start,
`BeforeWord` with all counters zero. -/
def ScanState.init : ScanState := ⟨.BeforeWord, 0, 0, 0⟩

/-- Modelled from the spec: the per-byte transition of the missing engine.
The character count grows once per byte when requested, the line count once
per newline byte when requested; a whitespace byte leads to `BeforeWord`, a
non-whitespace byte read in `BeforeWord` increments the word count and leads
to `InWord`, a non-whitespace byte read in `InWord` changes nothing. -/
def ScanState.step (req : CountRequest) (s : ScanState) (b : Nat) : ScanState :=
  let nchars := if req.wantChars then incr64 s.nchars else s.nchars
  let nlines := if req.wantLines && b == 10 then incr64 s.nlines else s.nlines
  if req.wantWords then
    if isWhitespace b then
      { state := .BeforeWord, nchars := nchars, nwords := s.nwords, nlines := nlines }
    else
      match s.state with
      | .BeforeWord =>
        { state := .InWord, nchars := nchars, nwords := incr64 s.nwords, nlines := nlines }
      | .InWord =>
        { state := .InWord, nchars := nchars, nwords := s.nwords, nlines := nlines }
  else
    { state := s.state, nchars := nchars, nwords := s.nwords, nlines := nlines }

/-- Modelled from the spec: the single pass of the missing engine over the
byte stream. The state is carried from byte to byte, so where the stream is
cut into chunks has no influence. -/
def scan (req : CountRequest) (bytes : List Nat) : ScanState :=
  bytes.foldl (ScanState.step req) ScanState.init

/-- Modelled from the spec: a 64-bit counter of the missing engine as a
`uint64_t` value. -/
def toU64 (n : Nat) : uint64_t := ⟨n % 2 ^ 64, Nat.mod_lt n (by decide)⟩

/-- Modelled from the spec: the operation `count` of the missing engine. A
file that cannot be opened or read fails with its error and gives no result;
otherwise exactly the requested fields are populated. -/
def count (fs : FileSys) (req : CountRequest) : Except CountError CountResult :=
  match fs req.path with
  | .error e => .error e
  | .ok bytes =>
    let s := scan req bytes
    .ok { chars := if req.wantChars then some (toU64 s.nchars) else none
          words := if req.wantWords then some (toU64 s.nwords) else none
          lines := if req.wantLines then some (toU64 s.nlines) else none }

/-- Modelled from the spec: the return code of the missing `fs_wc` for each
failure of the engine. The spec names the failures but no numbers; the codes
are distinct and non-zero. -/
def CountError.code : CountError → Int
  | .FileNotFound => -1
  | .PermissionDenied => -2
  | .IoReadError _ => -3

/-- Modelled from the spec: the missing library routine `fs_wc` over a file
system. It returns `0` and writes the requested counters when `count`
succeeds, and returns the failure's code and writes nothing when it fails. -/
def fs_wc_model (fs : FileSys) (file : String) (chars words lines : Bool) : FsWcOut :=
  match count fs ⟨file, chars, words, lines⟩ with
  | .ok r => { ret := 0, nchars := r.chars, nwords := r.words, nlines := r.lines }
  | .error e => { ret := e.code, nchars := none, nwords := none, nlines := none }

/-- Modelled from the spec: the missing checker `fs_checkret`, which raises the
host error with a descriptive message for every return code other than `0`. -/
def fs_checkret_model (ret : Int) : Option String :=
  if ret = 0 then none else some "fs_wc failed"

/-- The number of bytes of the file: the spec's "size in bytes". -/
def fileSize (bytes : List Nat) : Nat := bytes.length

/-- The spec's definition of a word count, in its own words: the number of
maximal runs of non-whitespace bytes. Cutting the stream at every whitespace
byte leaves the pieces between consecutive whitespace bytes; the maximal runs
are the non-empty pieces. -/
def maximalRuns (bytes : List Nat) : Nat :=
  ((bytes.splitOnP isWhitespace).filter (fun run => !run.isEmpty)).length

/-- The number of newline (`0x0A`) bytes of the file. -/
def newlineCount (bytes : List Nat) : Nat := bytes.count 10

/-! ## Concrete hosts for evaluation -/

/-- A host value: an integer vector of length one or a character vector. -/
inductive HostValue
  | int (v : Int)
  | str (elems : List String)
  deriving DecidableEq, Repr

/-- Element `0` of an integer vector. -/
def HostValue.asInt : HostValue → Int
  | .int v => v
  | .str _ => 0

/-- Element `i` of a character vector. -/
def HostValue.asString : HostValue → Nat → String
  | .str elems, i => elems.getD i ""
  | .int _, _ => ""

/-- A host over `HostValue` arguments whose `fs_wc` and `fs_checkret` are the
modelled engine over the file system `fs`. -/
def modelHost (fs : FileSys) (rm : RoundingMode) : Host HostValue :=
  { INT := HostValue.asInt
    CHARPT := HostValue.asString
    fs_wc := fs_wc_model fs
    fs_checkret := fs_checkret_model
    rounding := rm }

/-- A host over `HostValue` arguments whose `fs_wc` always gives `out`. -/
def fixedHost (out : FsWcOut) (check : Int → Option String) (rm : RoundingMode) :
    Host HostValue :=
  { INT := HostValue.asInt
    CHARPT := HostValue.asString
    fs_wc := fun _ _ _ _ => out
    fs_checkret := check
    rounding := rm }

/-- A file system with the single file `name`. -/
def oneFile (name : String) (bytes : List Nat) : FileSys :=
  fun p => if p = name then .ok bytes else .error .FileNotFound

/-- The outcome of `fs_wc` with every counter whose flag is false made
indeterminate again. -/
def eraseUnrequested (chars words lines : Bool) (out : FsWcOut) : FsWcOut :=
  { ret := out.ret
    nchars := if chars then out.nchars else none
    nwords := if words then out.nwords else none
    nlines := if lines then out.nlines else none }

/-- A host whose `fs_wc` leaves every counter it was not asked for
indeterminate. -/
def Host.erasing {SEXP : Type} (host : Host SEXP) : Host SEXP :=
  { host with
    fs_wc := fun file chars words lines =>
      eraseUnrequested chars words lines (host.fs_wc file chars words lines) }

/-- The vector `[c, w, l]` when all three elements have a value, and no
defined outcome otherwise. -/
def pack (c w l : Option Int) : Outcome :=
  match c, w, l with
  | some c, some w, some l => .returned [some c, some w, some l]
  | _, _, _ => .indeterminate

/-- The number of word-count increments the scanner makes on `bytes` when it
starts in state `st`. -/
def transitions : WordState → List Nat → Nat
  | _, [] => 0
  | st, b :: bs =>
    if isWhitespace b then transitions .BeforeWord bs
    else
      match st with
      | .BeforeWord => transitions .InWord bs + 1
      | .InWord => transitions .InWord bs

/-- The number of non-empty lists in a list of lists. -/
def nonEmptyCount (pieces : List (List Nat)) : Nat :=
  (pieces.filter (fun run => !run.isEmpty)).length

/-! ## Exactness of the cast to double -/

/-- The cast keeps a value exactly when the value has no bits below the unit
in the last place of its 53-bit significand. -/
theorem double_of_uint64_nat_eq_iff (rm : RoundingMode) (n : Nat) :
    double_of_uint64_nat rm n = n ↔ n % 2 ^ ulpShift 11 n = 0 := by
  unfold double_of_uint64_nat
  simp only
  have hP := Nat.two_pow_pos (ulpShift 11 n)
  revert hP
  generalize 2 ^ ulpShift 11 n = P
  intro hP
  have hdm : n / P * P + n % P = n := by
    rw [Nat.mul_comm]
    exact Nat.div_add_mod n P
  by_cases hr : n % P = 0
  · rw [if_pos hr]
    constructor
    · intro _
      exact hr
    · intro _
      omega
  · rw [if_neg hr]
    have hlt : n % P < P := Nat.mod_lt n hP
    have hhi : (n / P + 1) * P = n / P * P + P := by
      rw [Nat.add_mul, Nat.one_mul]
    constructor
    · intro h
      exfalso
      cases rm <;> simp only at h
      · split at h
        · omega
        · split at h
          · omega
          · split at h <;> omega
      · omega
      · omega
      · omega
    · intro h
      exact absurd h hr

theorem double_of_uint64_eq_iff (rm : RoundingMode) (n : Nat) :
    double_of_uint64 rm n = (n : Int) ↔ n % 2 ^ ulpShift 11 n = 0 := by
  rw [← double_of_uint64_nat_eq_iff rm n]
  unfold double_of_uint64
  simp only [Int.ofNat_eq_coe]
  exact Int.ofNat_inj

/-- Every value up to `2^53` is kept exactly by the cast. -/
theorem double_of_uint64_exact (rm : RoundingMode) (n : Nat) (h : n ≤ 2 ^ 53) :
    double_of_uint64 rm n = (n : Int) := by
  rw [double_of_uint64_eq_iff]
  rcases Nat.lt_or_eq_of_le h with hlt | heq
  · have : ulpShift 11 n = 0 := by
      unfold ulpShift
      rw [if_pos hlt]
    rw [this, Nat.pow_zero]
    exact Nat.mod_one n
  · subst heq
    decide

/-! ## Facts about the conversions -/

theorem bool_of_int_eq_true (v : Int) : bool_of_int v = true ↔ v ≠ 0 := by
  simp [bool_of_int]

theorem bool_of_int_eq_decide (v : Int) : bool_of_int v = decide (v ≠ 0) := by
  by_cases h : v = 0 <;> simp [bool_of_int, h]

theorem double_of_uint64_nonneg (rm : RoundingMode) (n : Nat) :
    0 ≤ double_of_uint64 rm n := by
  unfold double_of_uint64
  exact Int.ofNat_nonneg _

theorem cond_count_true (rm : RoundingMode) (n : uint64_t) :
    cond_count rm true (some n) = some (double_of_uint64 rm n.val) := by
  simp [cond_count]

theorem cond_count_false (rm : RoundingMode) (n : Option uint64_t) :
    cond_count rm false n = some (-1) := by
  simp [cond_count]

theorem cond_count_of_written (rm : RoundingMode) (flag : Bool) (cell : Option uint64_t)
    (n : uint64_t) (h : flag = true → cell = some n) :
    cond_count rm flag cell = some (if flag then double_of_uint64 rm n.val else -1) := by
  cases flag with
  | false => simp [cond_count]
  | true => rw [h rfl, cond_count_true]; simp

/-- On the true branch a counter up to `2^53` is surfaced unchanged. -/
theorem if_exact_of_le (rm : RoundingMode) (flag : Bool) (n : Nat)
    (h : flag = true → n ≤ 2 ^ 53) :
    (if flag then double_of_uint64 rm n else -1) = (if flag then (n : Int) else -1) := by
  cases flag with
  | false => rfl
  | true =>
    simp only [if_true]
    exact double_of_uint64_exact rm n (h rfl)

theorem cond_count_isSome (rm : RoundingMode) (flag : Bool) (cell : Option uint64_t)
    (h : flag = true → cell.isSome = true) : ∃ x, cond_count rm flag cell = some x := by
  cases flag with
  | false => exact ⟨-1, cond_count_false _ _⟩
  | true =>
    cases cell with
    | none => simp at h
    | some n => exact ⟨_, cond_count_true _ _⟩

theorem cond_count_erase (rm : RoundingMode) (flag : Bool) (n : Option uint64_t) :
    cond_count rm flag (if flag then n else none) = cond_count rm flag n := by
  cases flag <;> simp [cond_count]

theorem cond_count_some (rm : RoundingMode) (flag : Bool) (n : Option uint64_t) (x : Int)
    (h : cond_count rm flag n = some x) : (x ≠ -1 ↔ flag = true) ∧ (flag = true → 0 ≤ x) := by
  cases flag with
  | false =>
    simp only [cond_count, Bool.false_eq_true, if_false, Option.some.injEq] at h
    subst h
    simp
  | true =>
    cases n with
    | none => simp [cond_count] at h
    | some c =>
      rw [cond_count_true] at h
      have hx : x = double_of_uint64 rm c.val := (Option.some.inj h).symm
      have h0 := double_of_uint64_nonneg rm c.val
      subst hx
      refine ⟨⟨fun _ => rfl, fun _ => by omega⟩, fun _ => h0⟩

/-- The three writes `COUNTS(NCHARS) = c; COUNTS(NWORDS) = w; COUNTS(NLINES) = l`
on a fresh vector give `[c, w, l]`. -/
theorem counts_written (c w l : Int) :
    (((allocVector 3).set NCHARS (some c)).set NWORDS (some w)).set NLINES (some l)
      = [some c, some w, some l] := by
  rfl

/-- The body of `R_fs_wc` once the return code has passed the check. -/
theorem R_fs_wc_of_ok {SEXP : Type} (host : Host SEXP) (input chars_ words_ lines_ : SEXP)
    (c w l : Int)
    (hok : host.fs_checkret (host.fs_wc (host.CHARPT input 0) (bool_of_int (host.INT chars_))
      (bool_of_int (host.INT words_)) (bool_of_int (host.INT lines_))).ret = none)
    (hc : cond_count host.rounding (bool_of_int (host.INT chars_))
      (host.fs_wc (host.CHARPT input 0) (bool_of_int (host.INT chars_))
        (bool_of_int (host.INT words_)) (bool_of_int (host.INT lines_))).nchars = some c)
    (hw : cond_count host.rounding (bool_of_int (host.INT words_))
      (host.fs_wc (host.CHARPT input 0) (bool_of_int (host.INT chars_))
        (bool_of_int (host.INT words_)) (bool_of_int (host.INT lines_))).nwords = some w)
    (hl : cond_count host.rounding (bool_of_int (host.INT lines_))
      (host.fs_wc (host.CHARPT input 0) (bool_of_int (host.INT chars_))
        (bool_of_int (host.INT words_)) (bool_of_int (host.INT lines_))).nlines = some l) :
    R_fs_wc host input chars_ words_ lines_ = .returned [some c, some w, some l] := by
  simp only [R_fs_wc, hok, hc, hw, hl, counts_written]

/-- The body of `R_fs_wc` when the return code fails the check. -/
theorem R_fs_wc_of_fail {SEXP : Type} (host : Host SEXP) (input chars_ words_ lines_ : SEXP)
    (msg : String)
    (hfail : host.fs_checkret (host.fs_wc (host.CHARPT input 0) (bool_of_int (host.INT chars_))
      (bool_of_int (host.INT words_)) (bool_of_int (host.INT lines_))).ret = some msg) :
    R_fs_wc host input chars_ words_ lines_ = .raised msg [none, none, none] := by
  simp only [R_fs_wc, hfail]
  rfl

/-! ## The binding `R_fs_wc` -/

/-- C1, amended: for each of the 8 flag combinations, when the return code of
`fs_wc` passes the check and `fs_wc` wrote the counters it was asked for,
`R_fs_wc` returns exactly three elements in the order chars, words, lines; each
element is the counter of its field cast to double when the flag is set and
`-1` when it is not, so all flags false gives `[-1, -1, -1]`. When every
requested counter is at most `2^53` each requested element is the counter
itself. -/
theorem R_fs_wc_layout {SEXP : Type} (host : Host SEXP) (input chars_ words_ lines_ : SEXP)
    (chars words lines : Bool) (out : FsWcOut) (nc nw nl : uint64_t)
    (hchars : bool_of_int (host.INT chars_) = chars)
    (hwords : bool_of_int (host.INT words_) = words)
    (hlines : bool_of_int (host.INT lines_) = lines)
    (hcall : host.fs_wc (host.CHARPT input 0) chars words lines = out)
    (hok : host.fs_checkret out.ret = none)
    (hc : chars = true → out.nchars = some nc)
    (hw : words = true → out.nwords = some nw)
    (hl : lines = true → out.nlines = some nl) :
    R_fs_wc host input chars_ words_ lines_
        = .returned [some (if chars then double_of_uint64 host.rounding nc.val else -1),
                     some (if words then double_of_uint64 host.rounding nw.val else -1),
                     some (if lines then double_of_uint64 host.rounding nl.val else -1)]
      ∧ (chars = false → words = false → lines = false →
          R_fs_wc host input chars_ words_ lines_ = .returned [some (-1), some (-1), some (-1)])
      ∧ ((chars = true → nc.val ≤ 2 ^ 53) → (words = true → nw.val ≤ 2 ^ 53) →
          (lines = true → nl.val ≤ 2 ^ 53) →
          R_fs_wc host input chars_ words_ lines_
            = .returned [some (if chars then (nc.val : Int) else -1),
                         some (if words then (nw.val : Int) else -1),
                         some (if lines then (nl.val : Int) else -1)]) := by
  subst hchars hwords hlines hcall
  have key : R_fs_wc host input chars_ words_ lines_
      = .returned [some (if bool_of_int (host.INT chars_) then
                      double_of_uint64 host.rounding nc.val else -1),
                   some (if bool_of_int (host.INT words_) then
                      double_of_uint64 host.rounding nw.val else -1),
                   some (if bool_of_int (host.INT lines_) then
                      double_of_uint64 host.rounding nl.val else -1)] := by
    exact R_fs_wc_of_ok host input chars_ words_ lines_ _ _ _ hok
      (cond_count_of_written _ _ _ _ hc) (cond_count_of_written _ _ _ _ hw)
      (cond_count_of_written _ _ _ _ hl)
  refine ⟨key, fun h1 h2 h3 => ?_, fun b1 b2 b3 => ?_⟩
  · rw [key, h1, h2, h3]
    simp
  · rw [key, if_exact_of_le _ _ _ b1, if_exact_of_le _ _ _ b2, if_exact_of_le _ _ _ b3]

/-- C1, amended, at a concrete call: only words requested, `fs_wc` wrote 7
words. -/
theorem R_fs_wc_layout_witness :
    R_fs_wc (fixedHost ⟨0, none, some 7, none⟩ fs_checkret_model .tonearest)
        (.str ["f"]) (.int 0) (.int 1) (.int 0)
      = .returned [some (-1), some 7, some (-1)] :=
  (R_fs_wc_layout (fixedHost ⟨0, none, some 7, none⟩ fs_checkret_model .tonearest)
    (.str ["f"]) (.int 0) (.int 1) (.int 0) false true false ⟨0, none, some 7, none⟩ 0 7 0
    rfl rfl rfl rfl rfl (by decide) (fun _ => rfl) (by decide)).1

/-- C1 fails as stated: with only words requested and the word counter written
by `fs_wc` equal to `2^53 + 1`, the call succeeds and the words element of the
result is `2^53`, which is not the counter. -/
theorem R_fs_wc_layout_counterexample :
    ((fixedHost ⟨0, none, some 9007199254740993, none⟩ fs_checkret_model .tonearest).fs_wc
        "f" false true false).nwords = some 9007199254740993
      ∧ (9007199254740993 : uint64_t).val = 9007199254740993
      ∧ R_fs_wc (fixedHost ⟨0, none, some 9007199254740993, none⟩ fs_checkret_model .tonearest)
          (.str ["f"]) (.int 0) (.int 1) (.int 0)
          = .returned [some (-1), some 9007199254740992, some (-1)]
      ∧ (9007199254740992 : Int) ≠ 9007199254740993 := by
  refine ⟨rfl, by decide, by decide, by decide⟩

/-- C2: when `R_fs_wc` returns a vector, each of its three elements differs
from the sentinel `-1` if and only if the flag of its field was set; the value
of a requested count is never negative, so it is never `-1`, also when the
count is `0`. -/
theorem R_fs_wc_sentinel_iff {SEXP : Type} (host : Host SEXP)
    (input chars_ words_ lines_ : SEXP) (v : RealVec)
    (hret : R_fs_wc host input chars_ words_ lines_ = .returned v) :
    ∃ c w l : Int, v = [some c, some w, some l]
      ∧ (c ≠ -1 ↔ bool_of_int (host.INT chars_) = true)
      ∧ (w ≠ -1 ↔ bool_of_int (host.INT words_) = true)
      ∧ (l ≠ -1 ↔ bool_of_int (host.INT lines_) = true)
      ∧ (bool_of_int (host.INT chars_) = true → 0 ≤ c)
      ∧ (bool_of_int (host.INT words_) = true → 0 ≤ w)
      ∧ (bool_of_int (host.INT lines_) = true → 0 ≤ l) := by
  unfold R_fs_wc at hret
  simp only at hret
  split at hret
  · cases hret
  · split at hret
    · cases hret
    · rename_i c hc
      split at hret
      · cases hret
      · rename_i w hw
        split at hret
        · cases hret
        · rename_i l hl
          rw [counts_written] at hret
          have hv : v = [some c, some w, some l] := by
            injection hret with h
            exact h.symm
          have h1 := cond_count_some _ _ _ _ hc
          have h2 := cond_count_some _ _ _ _ hw
          have h3 := cond_count_some _ _ _ _ hl
          exact ⟨c, w, l, hv, h1.1, h2.1, h3.1, h1.2, h2.2, h3.2⟩

/-- C2 at a concrete call: chars requested on a file system whose file is
empty, so the genuine count `0` is returned next to two sentinels. -/
theorem R_fs_wc_sentinel_iff_witness :
    R_fs_wc (modelHost (oneFile "f" []) .tonearest) (.str ["f"]) (.int 1) (.int 0) (.int 0)
        = .returned [some 0, some (-1), some (-1)]
      ∧ ∃ c w l : Int, [some 0, some (-1), some (-1)] = [some c, some w, some l]
        ∧ (c ≠ -1 ↔ bool_of_int (HostValue.asInt (.int 1)) = true)
        ∧ (w ≠ -1 ↔ bool_of_int (HostValue.asInt (.int 0)) = true)
        ∧ (l ≠ -1 ↔ bool_of_int (HostValue.asInt (.int 0)) = true)
        ∧ (bool_of_int (HostValue.asInt (.int 1)) = true → 0 ≤ c)
        ∧ (bool_of_int (HostValue.asInt (.int 0)) = true → 0 ≤ w)
        ∧ (bool_of_int (HostValue.asInt (.int 0)) = true → 0 ≤ l) :=
  ⟨by decide,
   R_fs_wc_sentinel_iff (modelHost (oneFile "f" []) .tonearest)
     (.str ["f"]) (.int 1) (.int 0) (.int 0) [some 0, some (-1), some (-1)] (by decide)⟩

/-- C3: when the return code of `fs_wc` is one that `fs_checkret` raises on,
`R_fs_wc` raises the host error with that message; at that moment no element
of the result vector has been written, and no vector is returned. -/
theorem R_fs_wc_raises_on_failure {SEXP : Type} (host : Host SEXP)
    (input chars_ words_ lines_ : SEXP) (msg : String)
    (hfail : host.fs_checkret (host.fs_wc (host.CHARPT input 0) (bool_of_int (host.INT chars_))
      (bool_of_int (host.INT words_)) (bool_of_int (host.INT lines_))).ret = some msg) :
    R_fs_wc host input chars_ words_ lines_ = .raised msg [none, none, none]
      ∧ ∀ v : RealVec, R_fs_wc host input chars_ words_ lines_ ≠ .returned v := by
  have h := R_fs_wc_of_fail host input chars_ words_ lines_ msg hfail
  refine ⟨h, fun v hv => ?_⟩
  rw [h] at hv
  cases hv

/-- C3 at a concrete call: the named file does not exist. -/
theorem R_fs_wc_raises_on_failure_witness :
    R_fs_wc (modelHost (oneFile "f" [97]) .tonearest) (.str ["g"]) (.int 1) (.int 1) (.int 1)
        = .raised "fs_wc failed" [none, none, none]
      ∧ ∀ v : RealVec,
          R_fs_wc (modelHost (oneFile "f" [97]) .tonearest) (.str ["g"]) (.int 1) (.int 1) (.int 1)
            ≠ .returned v :=
  R_fs_wc_raises_on_failure (modelHost (oneFile "f" [97]) .tonearest)
    (.str ["g"]) (.int 1) (.int 1) (.int 1) "fs_wc failed" (by decide)

/-- The outcome of `R_fs_wc` written as a function of the return code and the
three conditional expressions only. -/
theorem R_fs_wc_unfold {SEXP : Type} (host : Host SEXP) (input chars_ words_ lines_ : SEXP) :
    R_fs_wc host input chars_ words_ lines_ =
      match host.fs_checkret (host.fs_wc (host.CHARPT input 0) (bool_of_int (host.INT chars_))
          (bool_of_int (host.INT words_)) (bool_of_int (host.INT lines_))).ret with
      | some msg => .raised msg [none, none, none]
      | none =>
        pack
          (cond_count host.rounding (bool_of_int (host.INT chars_))
            (host.fs_wc (host.CHARPT input 0) (bool_of_int (host.INT chars_))
              (bool_of_int (host.INT words_)) (bool_of_int (host.INT lines_))).nchars)
          (cond_count host.rounding (bool_of_int (host.INT words_))
            (host.fs_wc (host.CHARPT input 0) (bool_of_int (host.INT chars_))
              (bool_of_int (host.INT words_)) (bool_of_int (host.INT lines_))).nwords)
          (cond_count host.rounding (bool_of_int (host.INT lines_))
            (host.fs_wc (host.CHARPT input 0) (bool_of_int (host.INT chars_))
              (bool_of_int (host.INT words_)) (bool_of_int (host.INT lines_))).nlines) := by
  unfold R_fs_wc
  simp only
  split
  · rfl
  · generalize cond_count host.rounding (bool_of_int (host.INT chars_)) _ = a
    generalize cond_count host.rounding (bool_of_int (host.INT words_)) _ = b
    generalize cond_count host.rounding (bool_of_int (host.INT lines_)) _ = c
    cases a <;> cases b <;> cases c <;> rfl

theorem cond_count_congr (rm : RoundingMode) (flag : Bool) (a b : Option uint64_t)
    (h : flag = true → a = b) : cond_count rm flag a = cond_count rm flag b := by
  cases flag with
  | false => simp [cond_count]
  | true => rw [h rfl]

/-- The conditional expression gives the same value under two rounding
directions when they agree, or when the counter read is at most `2^53`. -/
theorem cond_count_congr_rounding (rm1 rm2 : RoundingMode) (flag : Bool)
    (a b : Option uint64_t) (h : flag = true → a = b)
    (hr : rm1 = rm2 ∨ (flag = true → ∀ n : uint64_t, a = some n → n.val ≤ 2 ^ 53)) :
    cond_count rm1 flag a = cond_count rm2 flag b := by
  cases flag with
  | false => simp [cond_count]
  | true =>
    rw [← h rfl]
    rcases hr with hr | hr
    · rw [hr]
    · cases a with
      | none => simp [cond_count]
      | some n =>
        rw [cond_count_true, cond_count_true, double_of_uint64_exact rm1 _ (hr rfl n rfl),
          double_of_uint64_exact rm2 _ (hr rfl n rfl)]

/-- C7, amended: two calls with the same flags and the same checker, whose
`fs_wc` gave the same return code and the same requested counters, made under
the same rounding direction or with every requested counter at most `2^53`,
end the same way; counters that were not requested may differ between the two
calls. When `fs_wc` wrote the requested counters, both calls raise the same
error or both return the same vector of three elements. -/
theorem R_fs_wc_idempotent {SEXP : Type} (h1 h2 : Host SEXP)
    (input chars_ words_ lines_ : SEXP) (chars words lines : Bool) (out1 out2 : FsWcOut)
    (hc1 : bool_of_int (h1.INT chars_) = chars) (hc2 : bool_of_int (h2.INT chars_) = chars)
    (hw1 : bool_of_int (h1.INT words_) = words) (hw2 : bool_of_int (h2.INT words_) = words)
    (hl1 : bool_of_int (h1.INT lines_) = lines) (hl2 : bool_of_int (h2.INT lines_) = lines)
    (hcheck : h1.fs_checkret = h2.fs_checkret)
    (hcall1 : h1.fs_wc (h1.CHARPT input 0) chars words lines = out1)
    (hcall2 : h2.fs_wc (h2.CHARPT input 0) chars words lines = out2)
    (hret : out1.ret = out2.ret)
    (hnc : chars = true → out1.nchars = out2.nchars)
    (hnw : words = true → out1.nwords = out2.nwords)
    (hnl : lines = true → out1.nlines = out2.nlines)
    (hround : h1.rounding = h2.rounding
      ∨ ((chars = true → ∀ n : uint64_t, out1.nchars = some n → n.val ≤ 2 ^ 53)
        ∧ (words = true → ∀ n : uint64_t, out1.nwords = some n → n.val ≤ 2 ^ 53)
        ∧ (lines = true → ∀ n : uint64_t, out1.nlines = some n → n.val ≤ 2 ^ 53))) :
    R_fs_wc h1 input chars_ words_ lines_ = R_fs_wc h2 input chars_ words_ lines_
      ∧ ((chars = true → out1.nchars.isSome = true) →
          (words = true → out1.nwords.isSome = true) →
          (lines = true → out1.nlines.isSome = true) →
          (∃ msg : String,
              R_fs_wc h1 input chars_ words_ lines_ = .raised msg [none, none, none]
                ∧ R_fs_wc h2 input chars_ words_ lines_ = .raised msg [none, none, none])
            ∨ (∃ c w l : Int,
              R_fs_wc h1 input chars_ words_ lines_ = .returned [some c, some w, some l]
                ∧ R_fs_wc h2 input chars_ words_ lines_
                  = .returned [some c, some w, some l])) := by
  have e1 : cond_count h1.rounding chars out1.nchars = cond_count h2.rounding chars out2.nchars :=
    cond_count_congr_rounding _ _ _ _ _ hnc (hround.imp id (fun h => h.1))
  have e2 : cond_count h1.rounding words out1.nwords = cond_count h2.rounding words out2.nwords :=
    cond_count_congr_rounding _ _ _ _ _ hnw (hround.imp id (fun h => h.2.1))
  have e3 : cond_count h1.rounding lines out1.nlines = cond_count h2.rounding lines out2.nlines :=
    cond_count_congr_rounding _ _ _ _ _ hnl (hround.imp id (fun h => h.2.2))
  have heq : R_fs_wc h1 input chars_ words_ lines_ = R_fs_wc h2 input chars_ words_ lines_ := by
    rw [R_fs_wc_unfold h1, R_fs_wc_unfold h2, hc1, hc2, hw1, hw2, hl1, hl2, hcall1, hcall2,
      hcheck, hret, e1, e2, e3]
  refine ⟨heq, fun s1 s2 s3 => ?_⟩
  rw [← heq]
  subst hc1 hw1 hl1 hcall1
  cases hck : h1.fs_checkret (h1.fs_wc (h1.CHARPT input 0) (bool_of_int (h1.INT chars_))
      (bool_of_int (h1.INT words_)) (bool_of_int (h1.INT lines_))).ret with
  | some msg =>
    exact Or.inl ⟨msg, R_fs_wc_of_fail h1 input chars_ words_ lines_ msg hck,
      R_fs_wc_of_fail h1 input chars_ words_ lines_ msg hck⟩
  | none =>
    obtain ⟨c, hc⟩ := cond_count_isSome h1.rounding _ _ s1
    obtain ⟨w, hw⟩ := cond_count_isSome h1.rounding _ _ s2
    obtain ⟨l, hl⟩ := cond_count_isSome h1.rounding _ _ s3
    exact Or.inr ⟨c, w, l, R_fs_wc_of_ok h1 input chars_ words_ lines_ c w l hck hc hw hl,
      R_fs_wc_of_ok h1 input chars_ words_ lines_ c w l hck hc hw hl⟩

/-- C7, amended, at a concrete pair of calls: words requested, both calls count
4 words, the counters that were not requested hold different leftovers and the
rounding directions differ. -/
theorem R_fs_wc_idempotent_witness :
    R_fs_wc (fixedHost ⟨0, some 11, some 4, none⟩ fs_checkret_model .tonearest)
        (.str ["f"]) (.int 0) (.int 1) (.int 0)
      = R_fs_wc (fixedHost ⟨0, none, some 4, some 99⟩ fs_checkret_model .upward)
        (.str ["f"]) (.int 0) (.int 1) (.int 0) :=
  (R_fs_wc_idempotent (fixedHost ⟨0, some 11, some 4, none⟩ fs_checkret_model .tonearest)
    (fixedHost ⟨0, none, some 4, some 99⟩ fs_checkret_model .upward)
    (.str ["f"]) (.int 0) (.int 1) (.int 0) false true false
    ⟨0, some 11, some 4, none⟩ ⟨0, none, some 4, some 99⟩
    rfl rfl rfl rfl rfl rfl rfl rfl rfl rfl (by decide) (fun _ => rfl) (by decide)
    (Or.inr ⟨by decide, fun _ n hn => by cases hn; decide, by decide⟩)).1

/-- C7 fails as stated: two calls with the same flags, the same checker, the
same return code and the same requested counter `2^53 + 1` return different
vectors when the rounding direction in force differs between them. -/
theorem R_fs_wc_idempotent_counterexample :
    R_fs_wc (fixedHost ⟨0, some 9007199254740993, none, none⟩ fs_checkret_model .tonearest)
        (.str ["f"]) (.int 1) (.int 0) (.int 0)
        = .returned [some 9007199254740992, some (-1), some (-1)]
      ∧ R_fs_wc (fixedHost ⟨0, some 9007199254740993, none, none⟩ fs_checkret_model .upward)
          (.str ["f"]) (.int 1) (.int 0) (.int 0)
          = .returned [some 9007199254740994, some (-1), some (-1)]
      ∧ R_fs_wc (fixedHost ⟨0, some 9007199254740993, none, none⟩ fs_checkret_model .tonearest)
          (.str ["f"]) (.int 1) (.int 0) (.int 0)
        ≠ R_fs_wc (fixedHost ⟨0, some 9007199254740993, none, none⟩ fs_checkret_model .upward)
          (.str ["f"]) (.int 1) (.int 0) (.int 0) := by
  refine ⟨by decide, by decide, by decide⟩

/-- C8: `R_fs_wc` reads a counter only on the branch where its own flag is
true. Making every counter whose flag is false indeterminate again after
`fs_wc` leaves the outcome unchanged, and when `fs_wc` wrote every counter
whose flag it was passed as true, no indeterminate value is read: the call
raises the checker's error or returns three written elements. -/
theorem R_fs_wc_reads_only_requested {SEXP : Type} (host : Host SEXP)
    (input chars_ words_ lines_ : SEXP) (out : FsWcOut)
    (hcall : host.fs_wc (host.CHARPT input 0) (bool_of_int (host.INT chars_))
      (bool_of_int (host.INT words_)) (bool_of_int (host.INT lines_)) = out)
    (hc : bool_of_int (host.INT chars_) = true → out.nchars.isSome = true)
    (hw : bool_of_int (host.INT words_) = true → out.nwords.isSome = true)
    (hl : bool_of_int (host.INT lines_) = true → out.nlines.isSome = true) :
    R_fs_wc host.erasing input chars_ words_ lines_ = R_fs_wc host input chars_ words_ lines_
      ∧ R_fs_wc host input chars_ words_ lines_ ≠ .indeterminate
      ∧ (host.fs_checkret out.ret = none →
          ∃ c w l : Int, R_fs_wc host input chars_ words_ lines_
            = .returned [some c, some w, some l]) := by
  subst hcall
  have hsome : ∀ (flag : Bool) (cell : Option uint64_t),
      (flag = true → cell.isSome = true) → ∃ x, cond_count host.rounding flag cell = some x := by
    intro flag cell h
    cases flag with
    | false => exact ⟨-1, cond_count_false _ _⟩
    | true =>
      cases cell with
      | none => simp at h
      | some n => exact ⟨_, cond_count_true _ _⟩
  obtain ⟨c, hc'⟩ := hsome _ _ hc
  obtain ⟨w, hw'⟩ := hsome _ _ hw
  obtain ⟨l, hl'⟩ := hsome _ _ hl
  refine ⟨?_, ?_, ?_⟩
  · rw [R_fs_wc_unfold host.erasing, R_fs_wc_unfold host]
    simp only [Host.erasing, eraseUnrequested, cond_count_erase]
  · cases hck : host.fs_checkret (host.fs_wc (host.CHARPT input 0)
        (bool_of_int (host.INT chars_)) (bool_of_int (host.INT words_))
        (bool_of_int (host.INT lines_))).ret with
    | some msg =>
      rw [R_fs_wc_of_fail host input chars_ words_ lines_ msg hck]
      simp
    | none =>
      rw [R_fs_wc_of_ok host input chars_ words_ lines_ c w l hck hc' hw' hl']
      simp
  · intro hck
    exact ⟨c, w, l, R_fs_wc_of_ok host input chars_ words_ lines_ c w l hck hc' hw' hl'⟩

/-- C8 at a concrete call: only lines requested, `fs_wc` wrote only the line
counter. -/
theorem R_fs_wc_reads_only_requested_witness :
    R_fs_wc (fixedHost ⟨0, none, none, some 5⟩ fs_checkret_model .tonearest).erasing
        (.str ["f"]) (.int 0) (.int 0) (.int 1)
      = R_fs_wc (fixedHost ⟨0, none, none, some 5⟩ fs_checkret_model .tonearest)
        (.str ["f"]) (.int 0) (.int 0) (.int 1)
    ∧ R_fs_wc (fixedHost ⟨0, none, none, some 5⟩ fs_checkret_model .tonearest)
        (.str ["f"]) (.int 0) (.int 0) (.int 1) ≠ .indeterminate
    ∧ (fs_checkret_model 0 = none →
        ∃ c w l : Int, R_fs_wc (fixedHost ⟨0, none, none, some 5⟩ fs_checkret_model .tonearest)
          (.str ["f"]) (.int 0) (.int 0) (.int 1) = .returned [some c, some w, some l]) :=
  R_fs_wc_reads_only_requested (fixedHost ⟨0, none, none, some 5⟩ fs_checkret_model .tonearest)
    (.str ["f"]) (.int 0) (.int 0) (.int 1) ⟨0, none, none, some 5⟩ rfl
    (by decide) (by decide) (fun _ => rfl)

/-- C9: the conversion to `bool` makes a flag true exactly when the host's
integer is non-zero, so negative values and the integer NA marker
(`-2147483648`) request the count; `fs_wc` is called with these three booleans,
and in the result each element is the counter of its field (cast to double)
when the integer is non-zero and `-1` when it is zero. -/
theorem R_fs_wc_flag_nonzero {SEXP : Type} (host : Host SEXP)
    (input chars_ words_ lines_ : SEXP) (out : FsWcOut) (nc nw nl : uint64_t)
    (hcall : host.fs_wc (host.CHARPT input 0) (decide (host.INT chars_ ≠ 0))
      (decide (host.INT words_ ≠ 0)) (decide (host.INT lines_ ≠ 0)) = out)
    (hok : host.fs_checkret out.ret = none)
    (hc : host.INT chars_ ≠ 0 → out.nchars = some nc)
    (hw : host.INT words_ ≠ 0 → out.nwords = some nw)
    (hl : host.INT lines_ ≠ 0 → out.nlines = some nl) :
    (∀ v : Int, bool_of_int v = true ↔ v ≠ 0)
      ∧ bool_of_int (-1) = true ∧ bool_of_int (-2147483648) = true
      ∧ R_fs_wc host input chars_ words_ lines_
        = .returned [some (if host.INT chars_ ≠ 0 then double_of_uint64 host.rounding nc.val else -1),
                     some (if host.INT words_ ≠ 0 then double_of_uint64 host.rounding nw.val else -1),
                     some (if host.INT lines_ ≠ 0 then double_of_uint64 host.rounding nl.val else -1)] := by
  refine ⟨bool_of_int_eq_true, by decide, by decide, ?_⟩
  subst hcall
  simp only [← bool_of_int_eq_decide] at hok hc hw hl
  have e : ∀ (v : Int) (a b : Int), (if v ≠ 0 then a else b) = (if bool_of_int v then a else b) := by
    intro v a b
    by_cases h : v = 0 <;> simp [bool_of_int, h]
  rw [e, e, e]
  exact R_fs_wc_of_ok host input chars_ words_ lines_ _ _ _ hok
    (cond_count_of_written _ _ _ _ (fun h => hc ((bool_of_int_eq_true _).1 h)))
    (cond_count_of_written _ _ _ _ (fun h => hw ((bool_of_int_eq_true _).1 h)))
    (cond_count_of_written _ _ _ _ (fun h => hl ((bool_of_int_eq_true _).1 h)))

/-- C9 at a concrete call: the flags arrive as `-5`, `0` and the NA marker. -/
theorem R_fs_wc_flag_nonzero_witness :
    R_fs_wc (fixedHost ⟨0, some 3, none, some 2⟩ fs_checkret_model .tonearest)
        (.str ["f"]) (.int (-5)) (.int 0) (.int (-2147483648))
      = .returned [some 3, some (-1), some 2] :=
  (R_fs_wc_flag_nonzero (fixedHost ⟨0, some 3, none, some 2⟩ fs_checkret_model .tonearest)
    (.str ["f"]) (.int (-5)) (.int 0) (.int (-2147483648)) ⟨0, some 3, none, some 2⟩ 3 0 2
    rfl rfl (fun _ => rfl) (fun h => absurd rfl h) (fun _ => rfl)).2.2.2

/-! ## The modelled engine: what the three counters hold -/

theorem incr64_add_mod (n k : Nat) : (incr64 n + k) % 2 ^ 64 = (n + (k + 1)) % 2 ^ 64 := by
  unfold incr64
  rw [Nat.mod_add_mod]
  congr 1
  omega

theorem transitions_cons (st : WordState) (b : Nat) (bs : List Nat) :
    transitions st (b :: bs)
      = if isWhitespace b then transitions .BeforeWord bs
        else
          match st with
          | .BeforeWord => transitions .InWord bs + 1
          | .InWord => transitions .InWord bs := by
  cases st <;> rfl

theorem step_nchars (req : CountRequest) (s : ScanState) (b : Nat) :
    (s.step req b).nchars = if req.wantChars then incr64 s.nchars else s.nchars := by
  unfold ScanState.step
  simp only
  split
  · split
    · rfl
    · split <;> rfl
  · rfl

theorem step_nlines (req : CountRequest) (s : ScanState) (b : Nat) :
    (s.step req b).nlines
      = if (req.wantLines && b == 10) = true then incr64 s.nlines else s.nlines := by
  unfold ScanState.step
  simp only
  split
  · split
    · rfl
    · split <;> rfl
  · rfl

theorem foldl_nchars (req : CountRequest) (bytes : List Nat) (s : ScanState) :
    (bytes.foldl (ScanState.step req) s).nchars % 2 ^ 64
      = (s.nchars + if req.wantChars then bytes.length else 0) % 2 ^ 64 := by
  induction bytes generalizing s with
  | nil => simp
  | cons b bs ih =>
    rw [List.foldl_cons, ih, step_nchars]
    cases req.wantChars with
    | false => simp
    | true =>
      simp only [if_true, List.length_cons]
      exact incr64_add_mod _ _

theorem foldl_nlines (req : CountRequest) (bytes : List Nat) (s : ScanState) :
    (bytes.foldl (ScanState.step req) s).nlines % 2 ^ 64
      = (s.nlines + if req.wantLines then bytes.count 10 else 0) % 2 ^ 64 := by
  induction bytes generalizing s with
  | nil => simp
  | cons b bs ih =>
    rw [List.foldl_cons, ih, step_nlines]
    cases req.wantLines with
    | false => simp
    | true =>
      by_cases hb : b = 10
      · subst hb
        simp only [Bool.true_and, beq_self_eq_true, if_true, List.count_cons_self]
        exact incr64_add_mod _ _
      · have hne : (b == 10) = false := by simpa using hb
        have hcount : List.count 10 (b :: bs) = List.count 10 bs :=
          List.count_cons_of_ne (fun h => hb h.symm) bs
        simp only [Bool.true_and, hne, Bool.false_eq_true, if_false, if_true, hcount]

theorem foldl_nwords (req : CountRequest) (hreq : req.wantWords = true) (bytes : List Nat)
    (s : ScanState) :
    (bytes.foldl (ScanState.step req) s).nwords % 2 ^ 64
      = (s.nwords + transitions s.state bytes) % 2 ^ 64 := by
  induction bytes generalizing s with
  | nil => simp [transitions]
  | cons b bs ih =>
    rw [List.foldl_cons, ih]
    unfold ScanState.step
    simp only [hreq, if_true]
    by_cases hws : isWhitespace b = true
    · simp only [hws, if_true]
      rw [transitions_cons]
      simp only [hws, if_true]
    · have hws' : isWhitespace b = false := by simpa using hws
      simp only [hws', Bool.false_eq_true, if_false]
      cases hst : s.state with
      | BeforeWord =>
        simp only
        rw [transitions_cons]
        simp only [hws', Bool.false_eq_true, if_false]
        exact incr64_add_mod _ _
      | InWord =>
        simp only
        rw [transitions_cons]
        simp only [hws', Bool.false_eq_true, if_false]

theorem foldl_nwords_off (req : CountRequest) (hreq : req.wantWords = false) (bytes : List Nat)
    (s : ScanState) : (bytes.foldl (ScanState.step req) s).nwords = s.nwords := by
  induction bytes generalizing s with
  | nil => rfl
  | cons b bs ih =>
    rw [List.foldl_cons, ih]
    unfold ScanState.step
    simp [hreq]

/-- The scanner's increments, counted from either state, against the pieces
that the whitespace bytes cut the stream into. -/
theorem transitions_eq_pieces (bytes : List Nat) :
    transitions .BeforeWord bytes = nonEmptyCount (bytes.splitOnP isWhitespace)
      ∧ transitions .InWord bytes = nonEmptyCount (bytes.splitOnP isWhitespace).tail := by
  induction bytes with
  | nil => simp [transitions, nonEmptyCount]
  | cons b bs ih =>
    rw [List.splitOnP_cons]
    by_cases hws : isWhitespace b = true
    · rw [if_pos hws]
      constructor
      · rw [transitions_cons, if_pos hws, ih.1]
        simp [nonEmptyCount]
      · rw [transitions_cons, if_pos hws, ih.1]
        rfl
    · rw [if_neg hws]
      obtain ⟨hd, tl, hsplit⟩ : ∃ hd tl, bs.splitOnP isWhitespace = hd :: tl := by
        cases h : bs.splitOnP isWhitespace with
        | nil => exact absurd h (List.splitOnP_ne_nil _ _)
        | cons hd tl => exact ⟨hd, tl, rfl⟩
      rw [hsplit] at ih ⊢
      have htail : transitions .InWord bs = nonEmptyCount tl := ih.2
      constructor
      · rw [transitions_cons, if_neg hws]
        simp only [htail, List.modifyHead_cons]
        simp [nonEmptyCount]
      · rw [transitions_cons, if_neg hws]
        simp only [htail, List.modifyHead_cons, List.tail_cons]

theorem transitions_eq_maximalRuns (bytes : List Nat) :
    transitions .BeforeWord bytes = maximalRuns bytes :=
  (transitions_eq_pieces bytes).1

theorem transitions_le_length (st : WordState) (bytes : List Nat) :
    transitions st bytes ≤ bytes.length := by
  induction bytes generalizing st with
  | nil => simp [transitions]
  | cons b bs ih =>
    rw [transitions_cons]
    have h1 := ih .BeforeWord
    have h2 := ih .InWord
    simp only [List.length_cons]
    split
    · omega
    · cases st <;> simp only <;> omega

theorem maximalRuns_le_length (bytes : List Nat) : maximalRuns bytes ≤ bytes.length := by
  rw [← transitions_eq_maximalRuns]
  exact transitions_le_length _ _

theorem newlineCount_le_length (bytes : List Nat) : newlineCount bytes ≤ bytes.length :=
  List.count_le_length 10 bytes

theorem scan_nchars (req : CountRequest) (bytes : List Nat) :
    (scan req bytes).nchars % 2 ^ 64
      = (if req.wantChars then fileSize bytes else 0) % 2 ^ 64 := by
  unfold scan fileSize
  rw [foldl_nchars]
  simp [ScanState.init]

theorem scan_nlines (req : CountRequest) (bytes : List Nat) :
    (scan req bytes).nlines % 2 ^ 64
      = (if req.wantLines then newlineCount bytes else 0) % 2 ^ 64 := by
  unfold scan newlineCount
  rw [foldl_nlines]
  simp [ScanState.init]

theorem scan_nwords (req : CountRequest) (bytes : List Nat) :
    (scan req bytes).nwords % 2 ^ 64
      = (if req.wantWords then maximalRuns bytes else 0) % 2 ^ 64 := by
  unfold scan
  cases hreq : req.wantWords with
  | false =>
    rw [foldl_nwords_off req hreq]
    simp [ScanState.init]
  | true =>
    rw [foldl_nwords req hreq, ← transitions_eq_maximalRuns]
    simp [ScanState.init]

theorem toU64_val (n : Nat) : (toU64 n).val = n % 2 ^ 64 := rfl

theorem toU64_val_of_lt (n : Nat) (h : n < 2 ^ 64) : (toU64 n).val = n := by
  rw [toU64_val]
  exact Nat.mod_eq_of_lt h

theorem toU64_congr (a b : Nat) (h : a % 2 ^ 64 = b % 2 ^ 64) : toU64 a = toU64 b := by
  apply Fin.ext
  rw [toU64_val, toU64_val, h]

/-- What the modelled `fs_wc` leaves behind for a readable file: return code
`0` and, for each requested field, the count of the whole file. -/
theorem fs_wc_model_ok (fs : FileSys) (file : String) (chars words lines : Bool)
    (bytes : List Nat) (hfile : fs file = .ok bytes) :
    fs_wc_model fs file chars words lines
      = { ret := 0
          nchars := if chars then some (toU64 (fileSize bytes)) else none
          nwords := if words then some (toU64 (maximalRuns bytes)) else none
          nlines := if lines then some (toU64 (newlineCount bytes)) else none } := by
  have h1 := toU64_congr _ _ (scan_nchars ⟨file, chars, words, lines⟩ bytes)
  have h2 := toU64_congr _ _ (scan_nwords ⟨file, chars, words, lines⟩ bytes)
  have h3 := toU64_congr _ _ (scan_nlines ⟨file, chars, words, lines⟩ bytes)
  simp only [fs_wc_model, count, hfile, h1, h2, h3]
  cases chars <;> cases words <;> cases lines <;> rfl

theorem cond_count_model (rm : RoundingMode) (flag : Bool) (n : Nat) (h : n < 2 ^ 64) :
    cond_count rm flag (if flag then some (toU64 n) else none)
      = some (if flag then double_of_uint64 rm n else -1) := by
  cases flag with
  | false => simp [cond_count]
  | true =>
    simp only [if_true]
    rw [cond_count_true, toU64_val_of_lt n h]

/-- The vector `R_fs_wc` returns when `fs_wc` is the modelled engine and the
named file is readable and smaller than `2^64` bytes. -/
theorem R_fs_wc_model_ok {SEXP : Type} (host : Host SEXP) (fs : FileSys)
    (input chars_ words_ lines_ : SEXP) (bytes : List Nat)
    (hwc : host.fs_wc = fs_wc_model fs) (hck : host.fs_checkret 0 = none)
    (hfile : fs (host.CHARPT input 0) = .ok bytes) (hsize : fileSize bytes < 2 ^ 64) :
    R_fs_wc host input chars_ words_ lines_
      = .returned
        [some (if bool_of_int (host.INT chars_) then
            double_of_uint64 host.rounding (fileSize bytes) else -1),
         some (if bool_of_int (host.INT words_) then
            double_of_uint64 host.rounding (maximalRuns bytes) else -1),
         some (if bool_of_int (host.INT lines_) then
            double_of_uint64 host.rounding (newlineCount bytes) else -1)] := by
  have hw : maximalRuns bytes < 2 ^ 64 :=
    Nat.lt_of_le_of_lt (maximalRuns_le_length bytes) hsize
  have hl : newlineCount bytes < 2 ^ 64 :=
    Nat.lt_of_le_of_lt (newlineCount_le_length bytes) hsize
  apply R_fs_wc_of_ok
  · rw [hwc, fs_wc_model_ok fs _ _ _ _ bytes hfile]
    exact hck
  · rw [hwc, fs_wc_model_ok fs _ _ _ _ bytes hfile]
    exact cond_count_model _ _ _ hsize
  · rw [hwc, fs_wc_model_ok fs _ _ _ _ bytes hfile]
    exact cond_count_model _ _ _ hw
  · rw [hwc, fs_wc_model_ok fs _ _ _ _ bytes hfile]
    exact cond_count_model _ _ _ hl

theorem transitions_whitespace (st : WordState) (bytes : List Nat)
    (h : ∀ b ∈ bytes, isWhitespace b = true) : transitions st bytes = 0 := by
  induction bytes generalizing st with
  | nil => simp [transitions]
  | cons b bs ih =>
    rw [transitions_cons, if_pos (h b (List.mem_cons_self b bs))]
    exact ih _ (fun x hx => h x (List.mem_cons_of_mem b hx))

theorem maximalRuns_whitespace (bytes : List Nat) (h : ∀ b ∈ bytes, isWhitespace b = true) :
    maximalRuns bytes = 0 := by
  rw [← transitions_eq_maximalRuns]
  exact transitions_whitespace _ _ h

theorem cond_count_model_mod (rm : RoundingMode) (flag : Bool) (n : Nat) :
    cond_count rm flag (if flag then some (toU64 n) else none)
      = some (if flag then double_of_uint64 rm (n % 2 ^ 64) else -1) := by
  cases flag with
  | false => simp [cond_count]
  | true =>
    simp only [if_true]
    rw [cond_count_true, toU64_val]

/-- The vector `R_fs_wc` returns when `fs_wc` is the modelled engine and the
named file is readable, whatever its size: each requested element is the
64-bit counter of its field cast to double. -/
theorem R_fs_wc_model_mod {SEXP : Type} (host : Host SEXP) (fs : FileSys)
    (input chars_ words_ lines_ : SEXP) (bytes : List Nat)
    (hwc : host.fs_wc = fs_wc_model fs) (hck : host.fs_checkret 0 = none)
    (hfile : fs (host.CHARPT input 0) = .ok bytes) :
    R_fs_wc host input chars_ words_ lines_
      = .returned
        [some (if bool_of_int (host.INT chars_) then
            double_of_uint64 host.rounding (fileSize bytes % 2 ^ 64) else -1),
         some (if bool_of_int (host.INT words_) then
            double_of_uint64 host.rounding (maximalRuns bytes % 2 ^ 64) else -1),
         some (if bool_of_int (host.INT lines_) then
            double_of_uint64 host.rounding (newlineCount bytes % 2 ^ 64) else -1)] := by
  apply R_fs_wc_of_ok
  · rw [hwc, fs_wc_model_ok fs _ _ _ _ bytes hfile]
    exact hck
  · rw [hwc, fs_wc_model_ok fs _ _ _ _ bytes hfile]
    exact cond_count_model_mod _ _ _
  · rw [hwc, fs_wc_model_ok fs _ _ _ _ bytes hfile]
    exact cond_count_model_mod _ _ _
  · rw [hwc, fs_wc_model_ok fs _ _ _ _ bytes hfile]
    exact cond_count_model_mod _ _ _

theorem le_two_pow_53_lt (n : Nat) (h : n ≤ 2 ^ 53) : n < 2 ^ 64 :=
  Nat.lt_of_le_of_lt h (by decide)

/-- The file made of `n` copies of the two bytes `a` and space holds `n`
maximal runs of non-whitespace bytes. -/
theorem transitions_words_file (n : Nat) :
    transitions .BeforeWord (List.replicate n [97, 32]).flatten = n := by
  induction n with
  | zero => rfl
  | succ k ih =>
    rw [List.replicate_succ, List.flatten_cons]
    show transitions .BeforeWord (97 :: 32 :: (List.replicate k [97, 32]).flatten) = k + 1
    rw [transitions_cons, if_neg (by decide)]
    show transitions .InWord (32 :: (List.replicate k [97, 32]).flatten) + 1 = k + 1
    rw [transitions_cons, if_pos (by decide), ih]

theorem maximalRuns_words_file (n : Nat) :
    maximalRuns (List.replicate n [97, 32]).flatten = n := by
  rw [← transitions_eq_maximalRuns]
  exact transitions_words_file n

theorem newlineCount_newlines_file (n : Nat) : newlineCount (List.replicate n 10) = n := by
  unfold newlineCount
  exact List.count_replicate_self 10 n

/-! ## The counts of the modelled engine, as `R_fs_wc` returns them -/

/-- C4, amended: when chars is requested and the call succeeds, the counter
`fs_wc` writes is the file's size in bytes, and the chars element of the result
is that size cast to double. The cast keeps the size exactly whenever the size
is at most `2^53`, and in general exactly when the size has no bits below the
last place of a 53-bit significand. -/
theorem chars_eq_rounded_file_size {SEXP : Type} (host : Host SEXP) (fs : FileSys)
    (input chars_ words_ lines_ : SEXP) (bytes : List Nat)
    (hwc : host.fs_wc = fs_wc_model fs) (hck : host.fs_checkret 0 = none)
    (hfile : fs (host.CHARPT input 0) = .ok bytes) (hsize : fileSize bytes < 2 ^ 64)
    (hchars : host.INT chars_ ≠ 0) :
    ∃ (n : uint64_t) (w l : Option Int),
      (host.fs_wc (host.CHARPT input 0) (bool_of_int (host.INT chars_))
          (bool_of_int (host.INT words_)) (bool_of_int (host.INT lines_))).nchars = some n
        ∧ n.val = fileSize bytes
        ∧ R_fs_wc host input chars_ words_ lines_
            = .returned [some (double_of_uint64 host.rounding n.val), w, l]
        ∧ (fileSize bytes ≤ 2 ^ 53 → double_of_uint64 host.rounding n.val = (fileSize bytes : Int))
        ∧ (double_of_uint64 host.rounding n.val = (fileSize bytes : Int)
            ↔ fileSize bytes % 2 ^ ulpShift 11 (fileSize bytes) = 0) := by
  have hflag : bool_of_int (host.INT chars_) = true := (bool_of_int_eq_true _).2 hchars
  have hval := toU64_val_of_lt _ hsize
  refine ⟨toU64 (fileSize bytes),
    some (if bool_of_int (host.INT words_) then
      double_of_uint64 host.rounding (maximalRuns bytes) else -1),
    some (if bool_of_int (host.INT lines_) then
      double_of_uint64 host.rounding (newlineCount bytes) else -1), ?_, hval, ?_, ?_, ?_⟩
  · rw [hwc, fs_wc_model_ok fs _ _ _ _ bytes hfile, hflag]
    rfl
  · rw [R_fs_wc_model_ok host fs input chars_ words_ lines_ bytes hwc hck hfile hsize, hflag,
      hval]
    rfl
  · intro h
    rw [hval]
    exact double_of_uint64_exact _ _ h
  · rw [hval]
    exact double_of_uint64_eq_iff _ _

/-- C4, amended, at a concrete call: a file of three bytes. -/
theorem chars_eq_rounded_file_size_witness :
    ∃ (n : uint64_t) (w l : Option Int),
      ((modelHost (oneFile "f" [97, 10, 98]) .tonearest).fs_wc "f" true false false).nchars
          = some n
        ∧ n.val = fileSize [97, 10, 98]
        ∧ R_fs_wc (modelHost (oneFile "f" [97, 10, 98]) .tonearest)
            (.str ["f"]) (.int 1) (.int 0) (.int 0)
            = .returned [some (double_of_uint64 .tonearest n.val), w, l]
        ∧ (fileSize [97, 10, 98] ≤ 2 ^ 53 →
            double_of_uint64 .tonearest n.val = (fileSize [97, 10, 98] : Int))
        ∧ (double_of_uint64 .tonearest n.val = (fileSize [97, 10, 98] : Int)
            ↔ fileSize [97, 10, 98] % 2 ^ ulpShift 11 (fileSize [97, 10, 98]) = 0) :=
  chars_eq_rounded_file_size (modelHost (oneFile "f" [97, 10, 98]) .tonearest)
    (oneFile "f" [97, 10, 98]) (.str ["f"]) (.int 1) (.int 0) (.int 0) [97, 10, 98]
    rfl rfl rfl (by decide) (by decide)

/-- C4 fails as stated: for a file of `2^53 + 1` bytes with chars requested,
the call succeeds and the chars element is `2^53`, not the file's size; the
cast does not keep `2^53 + 1` under any rounding direction. -/
theorem chars_not_exact_counterexample :
    fileSize (List.replicate 9007199254740993 0) = 9007199254740993
      ∧ R_fs_wc (modelHost (oneFile "f" (List.replicate 9007199254740993 0)) .tonearest)
          (.str ["f"]) (.int 1) (.int 0) (.int 0)
          = .returned [some 9007199254740992, some (-1), some (-1)]
      ∧ double_of_uint64 .tonearest 9007199254740993 ≠ 9007199254740993
      ∧ double_of_uint64 .upward 9007199254740993 ≠ 9007199254740993
      ∧ double_of_uint64 .downward 9007199254740993 ≠ 9007199254740993
      ∧ double_of_uint64 .towardzero 9007199254740993 ≠ 9007199254740993 := by
  have hlen : fileSize (List.replicate 9007199254740993 0) = 9007199254740993 := by
    unfold fileSize
    exact List.length_replicate _ _
  refine ⟨hlen, ?_, by decide, by decide, by decide, by decide⟩
  rw [R_fs_wc_model_ok (modelHost (oneFile "f" (List.replicate 9007199254740993 0)) .tonearest)
    (oneFile "f" (List.replicate 9007199254740993 0)) (.str ["f"]) (.int 1) (.int 0) (.int 0)
    (List.replicate 9007199254740993 0) rfl rfl rfl (by rw [hlen]; decide), hlen]
  decide

/-- C5, amended: when words is requested and the file is read, the word
counter that `fs_wc` writes is the number of maximal runs of non-whitespace
bytes (modulo `2^64`), where whitespace is space, tab, newline, carriage
return, vertical tab and form feed, and the words element of the result is
that counter cast to double: for every file with at most `2^53` such runs the
words element is the number of runs itself. A whitespace-only file gives `0`,
the file `"  hello   world  "` gives `2`, and the empty file with all flags
set gives `[0, 0, 0]`. -/
theorem words_eq_maximal_runs {SEXP : Type} (host : Host SEXP) (fs : FileSys)
    (input chars_ words_ lines_ : SEXP) (bytes : List Nat)
    (hwc : host.fs_wc = fs_wc_model fs) (hck : host.fs_checkret 0 = none)
    (hfile : fs (host.CHARPT input 0) = .ok bytes)
    (hwords : host.INT words_ ≠ 0) :
    (∃ (n : uint64_t) (c l : Option Int),
      (host.fs_wc (host.CHARPT input 0) (bool_of_int (host.INT chars_))
          (bool_of_int (host.INT words_)) (bool_of_int (host.INT lines_))).nwords = some n
        ∧ n.val = maximalRuns bytes % 2 ^ 64
        ∧ R_fs_wc host input chars_ words_ lines_
            = .returned [c, some (double_of_uint64 host.rounding n.val), l]
        ∧ (maximalRuns bytes ≤ 2 ^ 53 →
            n.val = maximalRuns bytes
              ∧ R_fs_wc host input chars_ words_ lines_
                = .returned [c, some (maximalRuns bytes : Int), l])
        ∧ ((∀ b ∈ bytes, isWhitespace b = true) →
            R_fs_wc host input chars_ words_ lines_ = .returned [c, some 0, l]))
      ∧ (∀ b : Nat, isWhitespace b = true
          ↔ b = 32 ∨ b = 9 ∨ b = 10 ∨ b = 13 ∨ b = 11 ∨ b = 12)
      ∧ R_fs_wc (modelHost (oneFile "f" [32, 32, 104, 101, 108, 108, 111, 32, 32, 32,
            119, 111, 114, 108, 100, 32, 32]) .tonearest)
          (.str ["f"]) (.int 0) (.int 1) (.int 0)
          = .returned [some (-1), some 2, some (-1)]
      ∧ R_fs_wc (modelHost (oneFile "f" []) .tonearest)
          (.str ["f"]) (.int 1) (.int 1) (.int 1)
          = .returned [some 0, some 0, some 0] := by
  have hflag : bool_of_int (host.INT words_) = true := (bool_of_int_eq_true _).2 hwords
  have hret := R_fs_wc_model_mod host fs input chars_ words_ lines_ bytes hwc hck hfile
  rw [hflag] at hret
  refine ⟨⟨toU64 (maximalRuns bytes),
    some (if bool_of_int (host.INT chars_) then
      double_of_uint64 host.rounding (fileSize bytes % 2 ^ 64) else -1),
    some (if bool_of_int (host.INT lines_) then
      double_of_uint64 host.rounding (newlineCount bytes % 2 ^ 64) else -1),
    ?_, toU64_val _, ?_, ?_, ?_⟩, ?_, by decide, by decide⟩
  · rw [hwc, fs_wc_model_ok fs _ _ _ _ bytes hfile, hflag]
    rfl
  · rw [hret, toU64_val]
    rfl
  · intro h
    have hmod : maximalRuns bytes % 2 ^ 64 = maximalRuns bytes :=
      Nat.mod_eq_of_lt (le_two_pow_53_lt _ h)
    refine ⟨by rw [toU64_val, hmod], ?_⟩
    rw [hret, hmod, if_pos rfl, double_of_uint64_exact _ _ h]
  · intro hws
    rw [hret, maximalRuns_whitespace bytes hws]
    cases host.rounding <;> rfl
  · intro b
    simp only [isWhitespace, Bool.or_eq_true, beq_iff_eq]
    constructor <;> intro h <;> omega

/-- C5, amended, at a concrete call: the file `"a b"` holds two words. -/
theorem words_eq_maximal_runs_witness :
    maximalRuns [97, 32, 98] = 2
      ∧ R_fs_wc (modelHost (oneFile "f" [97, 32, 98]) .tonearest)
          (.str ["f"]) (.int 0) (.int 1) (.int 0)
          = .returned [some (-1), some 2, some (-1)]
      ∧ ∃ (n : uint64_t) (c l : Option Int),
          ((modelHost (oneFile "f" [97, 32, 98]) .tonearest).fs_wc "f" false true false).nwords
              = some n
            ∧ n.val = maximalRuns [97, 32, 98] % 2 ^ 64
            ∧ R_fs_wc (modelHost (oneFile "f" [97, 32, 98]) .tonearest)
                (.str ["f"]) (.int 0) (.int 1) (.int 0)
                = .returned [c, some (double_of_uint64 .tonearest n.val), l]
            ∧ (maximalRuns [97, 32, 98] ≤ 2 ^ 53 →
                n.val = maximalRuns [97, 32, 98]
                  ∧ R_fs_wc (modelHost (oneFile "f" [97, 32, 98]) .tonearest)
                    (.str ["f"]) (.int 0) (.int 1) (.int 0)
                    = .returned [c, some (maximalRuns [97, 32, 98] : Int), l])
            ∧ ((∀ b ∈ [97, 32, 98], isWhitespace b = true) →
                R_fs_wc (modelHost (oneFile "f" [97, 32, 98]) .tonearest)
                  (.str ["f"]) (.int 0) (.int 1) (.int 0) = .returned [c, some 0, l]) :=
  ⟨by decide, by decide,
   (words_eq_maximal_runs (modelHost (oneFile "f" [97, 32, 98]) .tonearest)
     (oneFile "f" [97, 32, 98]) (.str ["f"]) (.int 0) (.int 1) (.int 0) [97, 32, 98]
     rfl rfl rfl (by decide)).1⟩

/-- C5 fails as stated: the file made of `2^53 + 1` copies of the two bytes
`a` and space holds `2^53 + 1` maximal runs of non-whitespace bytes, and with
words requested the call succeeds and the words element of the result is
`2^53`. -/
theorem words_not_exact_counterexample :
    maximalRuns (List.replicate 9007199254740993 [97, 32]).flatten = 9007199254740993
      ∧ R_fs_wc (modelHost (oneFile "f" (List.replicate 9007199254740993 [97, 32]).flatten)
            .tonearest) (.str ["f"]) (.int 0) (.int 1) (.int 0)
          = .returned [some (-1), some 9007199254740992, some (-1)]
      ∧ (9007199254740992 : Int) ≠ 9007199254740993 := by
  have hruns := maximalRuns_words_file 9007199254740993
  refine ⟨hruns, ?_, by decide⟩
  rw [R_fs_wc_model_mod
    (modelHost (oneFile "f" (List.replicate 9007199254740993 [97, 32]).flatten) .tonearest)
    (oneFile "f" (List.replicate 9007199254740993 [97, 32]).flatten)
    (.str ["f"]) (.int 0) (.int 1) (.int 0)
    (List.replicate 9007199254740993 [97, 32]).flatten rfl rfl rfl, hruns]
  decide

/-- C6, amended: when lines is requested and the file is read, the line counter
that `fs_wc` writes is the number of newline (`0x0A`) bytes of the file (modulo
`2^64`), and the lines element of the result is that counter cast to double:
for every file with at most `2^53` newline bytes the lines element is the
number of newline bytes itself. A last line without a newline is not counted:
`"a\nb"` gives `1` and `"a\nb\n"` gives `2`. -/
theorem lines_eq_newline_count {SEXP : Type} (host : Host SEXP) (fs : FileSys)
    (input chars_ words_ lines_ : SEXP) (bytes : List Nat)
    (hwc : host.fs_wc = fs_wc_model fs) (hck : host.fs_checkret 0 = none)
    (hfile : fs (host.CHARPT input 0) = .ok bytes)
    (hlines : host.INT lines_ ≠ 0) :
    (∃ (n : uint64_t) (c w : Option Int),
      (host.fs_wc (host.CHARPT input 0) (bool_of_int (host.INT chars_))
          (bool_of_int (host.INT words_)) (bool_of_int (host.INT lines_))).nlines = some n
        ∧ n.val = newlineCount bytes % 2 ^ 64
        ∧ R_fs_wc host input chars_ words_ lines_
            = .returned [c, w, some (double_of_uint64 host.rounding n.val)]
        ∧ (newlineCount bytes ≤ 2 ^ 53 →
            n.val = newlineCount bytes
              ∧ R_fs_wc host input chars_ words_ lines_
                = .returned [c, w, some (newlineCount bytes : Int)]))
      ∧ R_fs_wc (modelHost (oneFile "f" [97, 10, 98]) .tonearest)
          (.str ["f"]) (.int 0) (.int 0) (.int 1)
          = .returned [some (-1), some (-1), some 1]
      ∧ R_fs_wc (modelHost (oneFile "f" [97, 10, 98, 10]) .tonearest)
          (.str ["f"]) (.int 0) (.int 0) (.int 1)
          = .returned [some (-1), some (-1), some 2] := by
  have hflag : bool_of_int (host.INT lines_) = true := (bool_of_int_eq_true _).2 hlines
  have hret := R_fs_wc_model_mod host fs input chars_ words_ lines_ bytes hwc hck hfile
  rw [hflag] at hret
  refine ⟨⟨toU64 (newlineCount bytes),
    some (if bool_of_int (host.INT chars_) then
      double_of_uint64 host.rounding (fileSize bytes % 2 ^ 64) else -1),
    some (if bool_of_int (host.INT words_) then
      double_of_uint64 host.rounding (maximalRuns bytes % 2 ^ 64) else -1),
    ?_, toU64_val _, ?_, ?_⟩, by decide, by decide⟩
  · rw [hwc, fs_wc_model_ok fs _ _ _ _ bytes hfile, hflag]
    rfl
  · rw [hret, toU64_val]
    rfl
  · intro h
    have hmod : newlineCount bytes % 2 ^ 64 = newlineCount bytes :=
      Nat.mod_eq_of_lt (le_two_pow_53_lt _ h)
    refine ⟨by rw [toU64_val, hmod], ?_⟩
    rw [hret, hmod, if_pos rfl, double_of_uint64_exact _ _ h]

/-- C6, amended, at a concrete call: a file of three lines, the last one
unterminated. -/
theorem lines_eq_newline_count_witness :
    newlineCount [120, 10, 10, 121] = 2
      ∧ R_fs_wc (modelHost (oneFile "f" [120, 10, 10, 121]) .upward)
          (.str ["f"]) (.int 1) (.int 0) (.int 1)
          = .returned [some 4, some (-1), some 2]
      ∧ ∃ (n : uint64_t) (c w : Option Int),
          ((modelHost (oneFile "f" [120, 10, 10, 121]) .upward).fs_wc "f" true false true).nlines
              = some n
            ∧ n.val = newlineCount [120, 10, 10, 121] % 2 ^ 64
            ∧ R_fs_wc (modelHost (oneFile "f" [120, 10, 10, 121]) .upward)
                (.str ["f"]) (.int 1) (.int 0) (.int 1)
                = .returned [c, w, some (double_of_uint64 .upward n.val)]
            ∧ (newlineCount [120, 10, 10, 121] ≤ 2 ^ 53 →
                n.val = newlineCount [120, 10, 10, 121]
                  ∧ R_fs_wc (modelHost (oneFile "f" [120, 10, 10, 121]) .upward)
                    (.str ["f"]) (.int 1) (.int 0) (.int 1)
                    = .returned [c, w, some (newlineCount [120, 10, 10, 121] : Int)]) :=
  ⟨by decide, by decide,
   (lines_eq_newline_count (modelHost (oneFile "f" [120, 10, 10, 121]) .upward)
     (oneFile "f" [120, 10, 10, 121]) (.str ["f"]) (.int 1) (.int 0) (.int 1)
     [120, 10, 10, 121] rfl rfl rfl (by decide)).1⟩

/-- C6 fails as stated: the file made of `2^53 + 1` newline bytes holds
`2^53 + 1` newline bytes, and with lines requested the call succeeds and the
lines element of the result is `2^53`. -/
theorem lines_not_exact_counterexample :
    newlineCount (List.replicate 9007199254740993 10) = 9007199254740993
      ∧ R_fs_wc (modelHost (oneFile "f" (List.replicate 9007199254740993 10)) .tonearest)
          (.str ["f"]) (.int 0) (.int 0) (.int 1)
          = .returned [some (-1), some (-1), some 9007199254740992]
      ∧ (9007199254740992 : Int) ≠ 9007199254740993 := by
  have hcount := newlineCount_newlines_file 9007199254740993
  refine ⟨hcount, ?_, by decide⟩
  rw [R_fs_wc_model_mod
    (modelHost (oneFile "f" (List.replicate 9007199254740993 10)) .tonearest)
    (oneFile "f" (List.replicate 9007199254740993 10))
    (.str ["f"]) (.int 0) (.int 0) (.int 1)
    (List.replicate 9007199254740993 10) rfl rfl rfl, hcount]
  decide

end LineSampler
